import Mathlib

/-!
# Verification of the Drug-Candidate-Studio generation-and-optimization engine

Shallow embedding of the core of the repository:

* `src/optimization/pareto.rs` — dominance, Pareto-front extraction (two
  variants) and crowding distance;
* `src/chemistry/smiles.rs` — `MoleculeBuilder` valence accounting,
  `validate_smiles`, `generate_safe_smiles`;
* `src/chemistry/scaffolds.rs` — the scaffold library and the scaffold-based
  generators;
* `src/generation/generator.rs` — sequential and parallel candidate
  generation;
* `src/app/state.rs` — the `generation_worker` message loop.

Conventions of the embedding:

* Rust `usize`/`u64` become `Nat`; `u64` arithmetic that wraps is taken
  `% 2 ^ 64` explicitly.
* The four objective values are `f32` in the source but are only produced
  clamped to `[0, 1]` and, in the Pareto engine, only *compared* (never mixed
  with rounding-sensitive arithmetic relevant to the claims proved here), so
  they are embedded as `ℚ`.
* Strings are embedded as `List Char`.
* `StdRng` is a deterministic pseudo-random generator seeded by a `u64`; it is
  embedded abstractly as a state type `σ` together with the draw functions
  (`gen_bool`, `gen_range`) and the seeding function, universally quantified in
  the theorems.  Every theorem proved this way holds for the concrete `StdRng`
  instantiation.
-/

/-- `Candidate` of `src/app/state.rs` (lines 16–25).  The `f32` objective
fields are embedded as `ℚ` (see the header comment). -/
structure Candidate where
  id : Nat
  smiles : List Char
  efficacy : ℚ
  toxicity : ℚ
  synthesis_cost : ℚ
  manufacturing_cost : ℚ
  pareto : Bool
  deriving Repr, DecidableEq

/-- `Candidate::default` of `src/app/state.rs` (lines 100–112). -/
instance : Inhabited Candidate :=
  ⟨{ id := 0, smiles := ['C'], efficacy := 0, toxicity := 0,
     synthesis_cost := 0, manufacturing_cost := 0, pareto := false }⟩

/-- `dominates` of `src/optimization/pareto.rs` (lines 14–30): `a` is at least
as good as `b` on all four objectives and strictly better on at least one. -/
def dominates (a b : Candidate) : Bool :=
  let at_least_as_good :=
    decide (a.efficacy ≥ b.efficacy) &&
    decide (a.toxicity ≤ b.toxicity) &&
    decide (a.synthesis_cost ≤ b.synthesis_cost) &&
    decide (a.manufacturing_cost ≤ b.manufacturing_cost)
  let strictly_better :=
    decide (a.efficacy > b.efficacy) ||
    decide (a.toxicity < b.toxicity) ||
    decide (a.synthesis_cost < b.synthesis_cost) ||
    decide (a.manufacturing_cost < b.manufacturing_cost)
  at_least_as_good && strictly_better

/-- `pareto_front_ids` of `src/optimization/pareto.rs` (lines 34–50): keep a
candidate iff no other candidate (one with a different `id`) dominates it; the
returned `HashSet<usize>` is embedded as the list of kept ids (set semantics:
only membership is used). -/
def pareto_front_ids (cands : List Candidate) : List Nat :=
  (cands.filter fun c =>
    cands.all fun other => other.id == c.id || ! dominates other c).map (·.id)

/-! ## SMILES validation (`src/chemistry/smiles.rs`, lines 434–485)

`validate_smiles` checks, in order: non-emptiness, balanced parentheses (a
running counter that must never go negative and must end at zero), even
multiplicity of every ring-closure digit `1`–`9`, and absence of a fixed list
of forbidden substrings.  The early-return counter loop is embedded as
`scanDepth`, which returns `none` when the counter would go negative and
otherwise the final counter value. -/

/-- The parenthesis counter loop of `validate_smiles` (lines 441–456):
`paren_count` starts at `0`, `(` increments, `)` decrements with an early
`false` (here `none`) when the counter would drop below zero. -/
def scanDepth : List Char → Int → Option Int
  | [], d => some d
  | c :: rest, d =>
    if c == '(' then scanDepth rest (d + 1)
    else if c == ')' then
      if d - 1 < 0 then none else scanDepth rest (d - 1)
    else scanDepth rest d

/-- The ring-closure digits whose counts must be even (lines 459–469; the code
counts every digit but checks `ring_counts[1..]`, i.e. digits `1`–`9`). -/
def ringDigits : List Char := ['1', '2', '3', '4', '5', '6', '7', '8', '9']

/-- Rust's `str::contains(pattern)`: `p` occurs as a contiguous substring of
the second argument. -/
def containsSub (p : List Char) : List Char → Bool
  | [] => p.isPrefixOf []
  | c :: rest => p.isPrefixOf (c :: rest) || containsSub p rest

/-- `invalid_patterns` of `validate_smiles` (lines 472–476). -/
def invalidPatterns : List (List Char) :=
  ["((", "))", "()", "==", "##", "Cl(", "Br(", "F(", "I("].map String.toList

/-- `validate_smiles` of `src/chemistry/smiles.rs` (lines 435–485). -/
def validate_smiles (s : List Char) : Bool :=
  ! s.isEmpty &&
  scanDepth s 0 == some 0 &&
  ringDigits.all (fun ch => (s.count ch) % 2 == 0) &&
  invalidPatterns.all (fun p => ! containsSub p s)

/-! ## Scaffold library (`src/chemistry/scaffolds.rs`) -/

/-- `DrugScaffold` of `src/chemistry/scaffolds.rs` (lines 8–14); `mw_approx`
is an `f32` holding an exact small decimal, embedded as `ℚ`. -/
structure DrugScaffold where
  name : List Char
  smiles : List Char
  category : List Char
  mw_approx : ℚ
  deriving Repr, DecidableEq

/-- Placeholder used only for the out-of-range arm of list indexing; every
indexed access below is in range under the random-source contract. -/
instance : Inhabited DrugScaffold :=
  ⟨{ name := [], smiles := [], category := [], mw_approx := 0 }⟩

/-- `DRUG_SCAFFOLDS` of `src/chemistry/scaffolds.rs` (lines 17–227), in source
order. -/
def DRUG_SCAFFOLDS : List DrugScaffold :=
  [ ⟨"Aspirin".toList, "CC(=O)Oc1ccccc1C(=O)O".toList, "NSAID".toList, 180⟩,
    ⟨"Ibuprofen".toList, "CC(C)Cc1ccc(cc1)C(C)C(=O)O".toList, "NSAID".toList, 206⟩,
    ⟨"Paracetamol".toList, "CC(=O)Nc1ccc(O)cc1".toList, "Analgesic".toList, 151⟩,
    ⟨"Naproxen".toList, "COc1ccc2cc(ccc2c1)C(C)C(=O)O".toList, "NSAID".toList, 230⟩,
    ⟨"Penicillin-core".toList, "CC1(C)SC2C(NC(=O)C)C(=O)N2C1C(=O)O".toList, "Antibiotic".toList, 334⟩,
    ⟨"Sulfanilamide".toList, "Nc1ccc(cc1)S(N)(=O)=O".toList, "Antibiotic".toList, 172⟩,
    ⟨"Ciprofloxacin-core".toList, "c1cc2c(cc1F)c(=O)c(cn2C3CC3)C(=O)O".toList, "Antibiotic".toList, 331⟩,
    ⟨"Atenolol".toList, "CC(C)NCC(O)COc1ccc(cc1)CC(N)=O".toList, "Beta-blocker".toList, 266⟩,
    ⟨"Propranolol".toList, "CC(C)NCC(O)COc1cccc2ccccc12".toList, "Beta-blocker".toList, 259⟩,
    ⟨"Lisinopril-core".toList, "NCCCC(N)C(=O)N1CCCC1C(=O)O".toList, "ACE-inhibitor".toList, 405⟩,
    ⟨"Diazepam-core".toList, "CN1C(=O)CN=C(c2ccccc2)c3cc(Cl)ccc13".toList, "Benzodiazepine".toList, 284⟩,
    ⟨"Fluoxetine".toList, "CNCCC(Oc1ccc(cc1)C(F)(F)F)c2ccccc2".toList, "SSRI".toList, 309⟩,
    ⟨"Sertraline-core".toList, "CNC1CCC(c2ccc(Cl)c(Cl)c2)c3ccccc13".toList, "SSRI".toList, 306⟩,
    ⟨"Caffeine".toList, "Cn1cnc2c1c(=O)n(c(=O)n2C)C".toList, "Stimulant".toList, 194⟩,
    ⟨"Diphenhydramine".toList, "CN(C)CCOC(c1ccccc1)c2ccccc2".toList, "Antihistamine".toList, 255⟩,
    ⟨"Loratadine-core".toList, "CCOC(=O)N1CCC(=C2c3ccc(Cl)cc3CCc4cccnc24)CC1".toList, "Antihistamine".toList, 382⟩,
    ⟨"Metformin".toList, "CN(C)C(=N)NC(=N)N".toList, "Antidiabetic".toList, 129⟩,
    ⟨"Glipizide-core".toList, "Cc1cnc(cn1)C(=O)NCCc2ccc(cc2)S(=O)(=O)NC(=O)N".toList, "Antidiabetic".toList, 445⟩,
    ⟨"Acyclovir".toList, "Nc1nc2c(ncn2COCCO)c(=O)[nH]1".toList, "Antiviral".toList, 225⟩,
    ⟨"Oseltamivir-core".toList, "CCOC(=O)C1=CC(OC(CC)CC)C(NC(C)=O)C(N)C1".toList, "Antiviral".toList, 312⟩,
    ⟨"Imatinib-core".toList, "Cc1ccc(NC(=O)c2ccc(CN3CCN(C)CC3)cc2)cc1Nc4nccc(n4)c5cccnc5".toList, "Kinase-inhibitor".toList, 493⟩,
    ⟨"Methotrexate-core".toList, "CN(Cc1cnc2nc(N)nc(N)c2n1)c3ccc(cc3)C(=O)NC(CCC(=O)O)C(=O)O".toList, "Antimetabolite".toList, 454⟩,
    ⟨"Benzimidazole".toList, "c1ccc2[nH]cnc2c1".toList, "Scaffold".toList, 118⟩,
    ⟨"Quinoline".toList, "c1ccc2ncccc2c1".toList, "Scaffold".toList, 129⟩,
    ⟨"Indole".toList, "c1ccc2[nH]ccc2c1".toList, "Scaffold".toList, 117⟩,
    ⟨"Pyrimidine".toList, "c1cncnc1".toList, "Scaffold".toList, 80⟩,
    ⟨"Piperidine".toList, "C1CCNCC1".toList, "Scaffold".toList, 85⟩,
    ⟨"Morpholine".toList, "C1COCCN1".toList, "Scaffold".toList, 87⟩,
    ⟨"Piperazine".toList, "C1CNCCN1".toList, "Scaffold".toList, 86⟩,
    ⟨"Thiazole".toList, "c1cscn1".toList, "Scaffold".toList, 85⟩,
    ⟨"Oxazole".toList, "c1cocn1".toList, "Scaffold".toList, 69⟩,
    ⟨"Triazole".toList, "c1cn[nH]n1".toList, "Scaffold".toList, 69⟩ ]

/-- `SUBSTITUENTS` of `src/chemistry/scaffolds.rs` (lines 230–253):
`(name, smiles)` pairs. -/
def SUBSTITUENTS : List (List Char × List Char) :=
  [ ("methyl".toList, "C".toList),
    ("ethyl".toList, "CC".toList),
    ("propyl".toList, "CCC".toList),
    ("isopropyl".toList, "C(C)C".toList),
    ("tert-butyl".toList, "C(C)(C)C".toList),
    ("hydroxyl".toList, "O".toList),
    ("methoxy".toList, "OC".toList),
    ("ethoxy".toList, "OCC".toList),
    ("amino".toList, "N".toList),
    ("dimethylamino".toList, "N(C)C".toList),
    ("fluoro".toList, "F".toList),
    ("chloro".toList, "Cl".toList),
    ("bromo".toList, "Br".toList),
    ("cyano".toList, "C#N".toList),
    ("nitro".toList, "N(=O)=O".toList),
    ("carboxyl".toList, "C(=O)O".toList),
    ("amide".toList, "C(=O)N".toList),
    ("sulfonyl".toList, "S(=O)(=O)".toList),
    ("acetyl".toList, "C(=O)C".toList),
    ("phenyl".toList, "c1ccccc1".toList),
    ("benzyl".toList, "Cc1ccccc1".toList),
    ("pyridyl".toList, "c1ccncc1".toList) ]

/-- The `linkers` array inside `generate_hybrid_scaffold`
(`src/chemistry/scaffolds.rs` line 283). -/
def linkers : List (List Char) :=
  ["", "C", "CC", "O", "N", "C(=O)N"].map String.toList

/-- The `fallbacks` array inside `generate_safe_smiles`
(`src/chemistry/smiles.rs` lines 497–503). -/
def fallbackList : List (List Char) :=
  ["CCCC", "CCCCC", "CCCCCC", "c1ccccc1", "c1ccncc1", "C1CCCCC1", "C1CCNCC1",
   "CC(C)C", "CC(C)(C)C", "CCO", "CCCO", "CCN"].map String.toList

/-! ## Fragment safety

A *fragment* is a string that the scaffold generators append to an existing
valid SMILES (a substituent, a linker, or a second scaffold).  `fragOK`
collects the conditions under which appending a fragment preserves
`validate_smiles`: the fragment itself is balanced, has even ring-digit
counts and no forbidden pattern, and its first character cannot complete a
forbidden pattern across the append seam (every proper suffix of every
forbidden pattern starts with one of `( ) = # l r`). -/

/-- Characters that start a proper suffix of some forbidden pattern; a
fragment beginning with one of these could complete a pattern across the
append seam. -/
def badHead (c : Char) : Bool := c ∈ ['(', ')', '=', '#', 'l', 'r']

/-- The fragment's first character (if any) cannot complete a forbidden
pattern started to the left of the seam. -/
def headSafeF : List Char → Bool
  | [] => true
  | c :: _ => ! badHead c

/-- Conditions under which appending a fragment preserves validity. -/
def fragOK (a : List Char) : Bool :=
  scanDepth a 0 == some 0 &&
  ringDigits.all (fun ch => (a.count ch) % 2 == 0) &&
  invalidPatterns.all (fun p => ! containsSub p a) &&
  headSafeF a

/-! ## Valence-checked molecular graph construction
(`src/chemistry/smiles.rs`, lines 8–76) -/

/-- `Atom` of `src/chemistry/smiles.rs` (lines 10–16).  `u8` valence fields
become `Nat`: every caller passes a valence ≤ 4, and the invariant theorems
below show the additions stay far below the `u8` range. -/
structure BuilderAtom where
  symbol : List Char
  max_valence : Nat
  used_valence : Nat
  aromatic : Bool
  in_ring : Bool
  deriving Repr, DecidableEq

instance : Inhabited BuilderAtom :=
  ⟨{ symbol := [], max_valence := 0, used_valence := 0,
     aromatic := false, in_ring := false }⟩

/-- `Atom::new` (lines 19–27). -/
def BuilderAtom.new (symbol : List Char) (max_valence : Nat) : BuilderAtom :=
  { symbol := symbol, max_valence := max_valence, used_valence := 0,
    aromatic := false, in_ring := false }

/-- `Atom::available_valence` (lines 29–31): `saturating_sub` is `Nat`
subtraction. -/
def BuilderAtom.available_valence (a : BuilderAtom) : Nat :=
  a.max_valence - a.used_valence

/-- `Atom::can_bond` (lines 33–35). -/
def BuilderAtom.can_bond (a : BuilderAtom) (bond_order : Nat) : Bool :=
  bond_order ≤ a.available_valence

/-- `Atom::add_bond` (lines 37–39). -/
def BuilderAtom.bump (a : BuilderAtom) (bond_order : Nat) : BuilderAtom :=
  { a with used_valence := a.used_valence + bond_order }

/-- In-place update of the element at index `i` (Rust's `self.atoms[i]`
assignment); out-of-range indices leave the list unchanged. -/
def modifyAt (l : List BuilderAtom) (i : Nat) (f : BuilderAtom → BuilderAtom) :
    List BuilderAtom :=
  match l, i with
  | [], _ => []
  | x :: xs, 0 => f x :: xs
  | x :: xs, j + 1 => x :: modifyAt xs j f

/-- `MoleculeBuilder` of `src/chemistry/smiles.rs` (lines 43–47). -/
structure MoleculeBuilder where
  atoms : List BuilderAtom
  bonds : List (Nat × Nat × Nat)
  ring_closures : List (Nat × Nat)
  deriving Repr, DecidableEq

/-- `MoleculeBuilder::new` (lines 50–56). -/
def MoleculeBuilder.new : MoleculeBuilder :=
  { atoms := [], bonds := [], ring_closures := [] }

/-- `MoleculeBuilder::add_atom` (lines 58–62): returns the new builder and the
index of the added atom. -/
def MoleculeBuilder.add_atom (m : MoleculeBuilder) (symbol : List Char)
    (valence : Nat) : MoleculeBuilder × Nat :=
  ({ m with atoms := m.atoms ++ [BuilderAtom.new symbol valence] },
   m.atoms.length)

/-- `MoleculeBuilder::add_bond` (lines 64–76): bounds check, then the valence
check on both endpoints, then the two `used_valence` additions in source order
(so `fromIdx = toIdx` adds the order twice to the same atom) and the push onto
`bonds`. -/
def MoleculeBuilder.add_bond (m : MoleculeBuilder) (fromIdx toIdx order : Nat) :
    MoleculeBuilder × Bool :=
  if m.atoms.length ≤ fromIdx ∨ m.atoms.length ≤ toIdx then (m, false)
  else if ! (m.atoms.getD fromIdx default).can_bond order ∨
          ! (m.atoms.getD toIdx default).can_bond order then (m, false)
  else
    ({ m with
        atoms := modifyAt (modifyAt m.atoms fromIdx (·.bump order)) toIdx
          (·.bump order),
        bonds := m.bonds ++ [(fromIdx, toIdx, order)] }, true)

/-- A construction step: the two mutating operations the builder exposes. -/
inductive BuildOp where
  | addAtom (symbol : List Char) (valence : Nat)
  | addBond (fromIdx toIdx order : Nat)
  deriving Repr, DecidableEq

/-- Apply one construction step (discarding the returned index / flag). -/
def runOp (m : MoleculeBuilder) : BuildOp → MoleculeBuilder
  | .addAtom s v => (m.add_atom s v).1
  | .addBond f t o => (m.add_bond f t o).1

/-- Run a construction sequence from the empty builder. -/
def runOps (ops : List BuildOp) : MoleculeBuilder :=
  ops.foldl runOp MoleculeBuilder.new

/-- The core §4.2 invariant: no atom's used valence exceeds its declared
maximum. -/
def ValenceInvariant (m : MoleculeBuilder) : Prop :=
  ∀ a ∈ m.atoms, a.used_valence ≤ a.max_valence

/-- A construction sequence whose bond additions all have distinct
endpoints (true of every `add_bond` call site in the repository). -/
def NoSelfBonds (ops : List BuildOp) : Prop :=
  ∀ op ∈ ops, ∀ f t o, op = BuildOp.addBond f t o → f ≠ t

/-! ## Candidate generation (`src/generation/generator.rs`)

The generator draws from a `StdRng`, dispatches between the scaffold,
hybrid-scaffold and safe-random synthesis strategies, and scores the result.
`StdRng` and the leaf functions that are out of this core's scope are
collected in an abstract, deterministic environment `GenEnv`; every theorem
quantifies over the environment, so it holds in particular for the concrete
`StdRng` / descriptor implementations. -/

/-- The deterministic environment of a generation run:

* `genBool p` embeds `rng.gen_bool(p)`, `genRange lo hi` embeds
  `rng.gen_range(lo..hi)` (an inclusive `lo..=hi` range is drawn as
  `genRange lo (hi+1)`), `seedFrom` embeds `StdRng::seed_from_u64`;
* `genValid` embeds `generate_valid_smiles` (`src/chemistry/smiles.rs` lines
  179–190, the strategy dispatch whose output `generate_safe_smiles` always
  re-validates, so its body never affects the properties proved here);
* `calcProps` embeds `calculate_properties` (`src/generation/generator.rs`
  lines 85–104; descriptor heuristics are out of the core's scope per §1, and
  it is a pure state transformer of the per-item RNG). -/
structure GenEnv (σ : Type) where
  genBool : ℚ → σ → Bool × σ
  genRange : Nat → Nat → σ → Nat × σ
  seedFrom : Nat → σ
  genValid : σ → List Char × σ
  calcProps : List Char → σ → (ℚ × ℚ × ℚ × ℚ) × σ

/-- rand's contract for `gen_range(lo..hi)`: the draw lies in `[lo, hi)`. -/
def GenEnv.RangeOk {σ : Type} (env : GenEnv σ) : Prop :=
  ∀ lo hi s, lo < hi →
    lo ≤ (env.genRange lo hi s).1 ∧ (env.genRange lo hi s).1 < hi

/-- The substituent loop of `generate_from_scaffold`
(`src/chemistry/scaffolds.rs` lines 261–268): each turn draws a substituent
index and a coin, appending the substituent on heads. -/
def scaffoldSubLoop {σ : Type} (env : GenEnv σ) :
    Nat → List Char → σ → List Char × σ
  | 0, smiles, rng => (smiles, rng)
  | k + 1, smiles, rng =>
    let jr := env.genRange 0 SUBSTITUENTS.length rng
    let sub := (SUBSTITUENTS.getD jr.1 ([], [])).2
    let cr := env.genBool (1/2) jr.2
    scaffoldSubLoop env k (if cr.1 then smiles ++ sub else smiles) cr.2

/-- `generate_from_scaffold` of `src/chemistry/scaffolds.rs` (lines
256–271). -/
def generate_from_scaffold {σ : Type} (env : GenEnv σ) (rng : σ) :
    List Char × σ :=
  let ir := env.genRange 0 DRUG_SCAFFOLDS.length rng
  let scaffold := DRUG_SCAFFOLDS.getD ir.1 default
  let nr := env.genRange 0 3 ir.2
  scaffoldSubLoop env nr.1 scaffold.smiles nr.2

/-- `generate_hybrid_scaffold` of `src/chemistry/scaffolds.rs` (lines
274–295). -/
def generate_hybrid_scaffold {σ : Type} (env : GenEnv σ) (rng : σ) :
    List Char × σ :=
  let i1r := env.genRange 0 DRUG_SCAFFOLDS.length rng
  let scaffold1 := DRUG_SCAFFOLDS.getD i1r.1 default
  let i2r := env.genRange 0 DRUG_SCAFFOLDS.length i1r.2
  let scaffold2 := DRUG_SCAFFOLDS.getD i2r.1 default
  let smiles := scaffold1.smiles
  let lr := env.genRange 0 linkers.length i2r.2
  let linker := linkers.getD lr.1 []
  let cr := env.genBool (3/10) lr.2
  if cr.1 && decide (scaffold2.mw_approx < 200) then
    let smiles := smiles ++ linker
    let smiles :=
      if scaffold2.smiles.length < 20 then smiles ++ scaffold2.smiles
      else smiles
    (smiles, cr.2)
  else (smiles, cr.2)

/-- The retry loop of `generate_safe_smiles` (`src/chemistry/smiles.rs` lines
489–494): up to `k` attempts, returning the first validated string and the
random-source state after it. -/
def safeLoop {σ : Type} (env : GenEnv σ) : Nat → σ → Option (List Char) × σ
  | 0, rng => (none, rng)
  | k + 1, rng =>
    let sr := env.genValid rng
    if validate_smiles sr.1 then (some sr.1, sr.2)
    else safeLoop env k sr.2

/-- `generate_safe_smiles` of `src/chemistry/smiles.rs` (lines 488–506):
5 validated attempts, then a pseudo-random pick from the hard-coded fallback
list. -/
def generate_safe_smiles {σ : Type} (env : GenEnv σ) (rng : σ) :
    List Char × σ :=
  match safeLoop env 5 rng with
  | (some smiles, rng) => (smiles, rng)
  | (none, rng) =>
    let jr := env.genRange 0 fallbackList.length rng
    (fallbackList.getD jr.1 [], jr.2)

/-- The per-item strategy dispatch of `generate_candidates` /
`generate_candidates_parallel` (`src/generation/generator.rs` lines 16–25 and
52–58): scaffold with probability 0.6, hybrid with 0.12, safe-random with
0.28. -/
def item_smiles {σ : Type} (env : GenEnv σ) (rng : σ) : List Char × σ :=
  let b1 := env.genBool (6/10) rng
  if b1.1 then generate_from_scaffold env b1.2
  else
    let b2 := env.genBool (3/10) b1.2
    if b2.1 then generate_hybrid_scaffold env b2.2
    else generate_safe_smiles env b2.2

/-- One item of a generation run: synthesize a SMILES, score it, assemble the
`Candidate` (`src/generation/generator.rs` lines 12–38 / 45–71; `pareto` is
always created `false`). -/
def generate_one {σ : Type} (env : GenEnv σ) (id : Nat) (rng : σ) :
    Candidate × σ :=
  let sr := item_smiles env rng
  let pr := env.calcProps sr.1 sr.2
  ({ id := id, smiles := sr.1, efficacy := pr.1.1, toxicity := pr.1.2.1,
     synthesis_cost := pr.1.2.2.1, manufacturing_cost := pr.1.2.2.2,
     pareto := false }, pr.2)

/-- The item loop of `generate_candidates`: one `StdRng` threaded through all
items in index order (`(0..n).map(|i| ...)` with a shared `&mut rng`). -/
def gen_items {σ : Type} (env : GenEnv σ) :
    Nat → Nat → σ → List Candidate × σ
  | _, 0, rng => ([], rng)
  | id, k + 1, rng =>
    let cr := generate_one env id rng
    let rest := gen_items env (id + 1) k cr.2
    (cr.1 :: rest.1, rest.2)

/-- `generate_candidates` of `src/generation/generator.rs` (lines 9–39). -/
def generate_candidates {σ : Type} (env : GenEnv σ)
    (start_id n seed : Nat) : List Candidate :=
  (gen_items env start_id n (env.seedFrom (seed % 2 ^ 64))).1

/-- The per-index seed derivation of `generate_candidates_parallel`
(`src/generation/generator.rs` line 46):
`seed.wrapping_add(i as u64 * 31337)`, i.e. wrapping `u64` addition. -/
def thread_seed (seed i : Nat) : Nat := (seed + i * 31337) % 2 ^ 64

/-- Modelled from the spec: §4.1 states "Each index `i` derives its own
pseudo-random seed as `seed ⊕ (i * large_odd_constant)`", i.e. bitwise
exclusive-or of the request seed with the wrapped product.  Stated here only
to be compared against the code's `thread_seed`. -/
def thread_seed_spec (seed i : Nat) : Nat :=
  Nat.xor (seed % 2 ^ 64) ((i * 31337) % 2 ^ 64)

/-- One item of a Parallel-mode run (`src/generation/generator.rs` lines
45–71): a fresh `StdRng` seeded from `thread_seed`, so the item depends only
on `(start_id, seed, i)`. -/
def parallel_item {σ : Type} (env : GenEnv σ) (start_id seed i : Nat) :
    Candidate :=
  (generate_one env (start_id + i) (env.seedFrom (thread_seed seed i))).1

/-- `generate_candidates_parallel` of `src/generation/generator.rs` (lines
42–75): rayon's indexed parallel collect places the item computed for index
`i` at position `i` regardless of which worker thread ran it. -/
def generate_candidates_parallel {σ : Type} (env : GenEnv σ)
    (start_id n seed : Nat) : List Candidate :=
  (List.range n).map (parallel_item env start_id seed)

/-- A Parallel-mode run under an explicit execution schedule: `sched` lists
the indices in the order the hardware execution units happened to finish
computing them; the collect then assembles the results by index.  A junk
default stands for the impossible case of an index no unit computed. -/
def runWithSchedule {σ : Type} (env : GenEnv σ) (start_id n seed : Nat)
    (sched : List Nat) : List Candidate :=
  let computed := sched.map (fun i => (i, parallel_item env start_id seed i))
  (List.range n).map (fun i => (computed.lookup i).getD default)

/-! ## The generation worker (`src/app/state.rs`, lines 473–531) -/

/-- `WorkerMessage` of `src/app/state.rs` (lines 7–14).  Note there is no
`Cancelled` variant: cancellation can only be reported through
`GenerationError`. -/
inductive WorkerMessage where
  | GenerateCandidates (n seed start_id : Nat) (parallel : Bool)
  | CancelGeneration
  | GenerationProgress (current total : Nat)
  | GenerationComplete (candidates : List Candidate)
  | GenerationError (reason : List Char)
  deriving Repr, DecidableEq

/-- The reason string the worker sends on cancellation
(`src/app/state.rs` line 523). -/
def cancelledReason : List Char := "Cancelled".toList

/-- Number of iterations of `(0..n).step_by(50)`. -/
def numBatches (n : Nat) : Nat := (n + 49) / 50

/-- The Sequential branch of `generation_worker` (`src/app/state.rs` lines
490–525), parameterized by the cancellation environment `cp`: `cp b = true`
iff a `CancelGeneration` message is waiting on the control channel when the
`try_recv` check at the start of batch `b` runs.  Arguments: current batch
index, remaining batch count, candidates accumulated so far.  Returns the
messages sent on the result channel, in order. -/
def worker_seq_go {σ : Type} (env : GenEnv σ) (cp : Nat → Bool)
    (start_id n seed : Nat) : Nat → Nat → List Candidate → List WorkerMessage
  | _, 0, acc => [WorkerMessage.GenerationComplete acc]
  | b, k + 1, acc =>
    if cp b then [WorkerMessage.GenerationError cancelledReason]
    else
      let batch_start := b * 50
      let batch_end := min (batch_start + 50) n
      let batch := generate_candidates env (start_id + batch_start)
        (batch_end - batch_start) ((seed + batch_start) % 2 ^ 64)
      WorkerMessage.GenerationProgress batch_end n ::
        worker_seq_go env cp start_id n seed (b + 1) k (acc ++ batch)

/-- A full Sequential-mode request: the batch loop from batch 0 with an empty
accumulator. -/
def worker_sequential {σ : Type} (env : GenEnv σ) (cp : Nat → Bool)
    (start_id n seed : Nat) : List WorkerMessage :=
  worker_seq_go env cp start_id n seed 0 (numBatches n) []

/-- The batch decomposition the worker performs, written as the spec describes
it: batch `b` covers indices `[50b, min(50b+50, n))` and is generated with
per-batch seed `seed + 50b` (wrapping `u64` addition). -/
def sequential_batches {σ : Type} (env : GenEnv σ)
    (start_id n seed : Nat) : List Candidate :=
  ((List.range (numBatches n)).map fun b =>
    generate_candidates env (start_id + b * 50) (min (b * 50 + 50) n - b * 50)
      ((seed + b * 50) % 2 ^ 64)).flatten

/-- The Sequential worker branch with a fallible per-batch pipeline, modelling
Rust panic propagation: the pipeline returns `Except.error` when any per-item
computation panics.  `generation_worker` contains no `catch_unwind`, so the
embedding propagates the error out of the whole loop (the worker thread
unwinds and dies) instead of emitting any terminal event. -/
def worker_seq_panic_go (pipeline :
    Nat → Nat → Nat → Except (List Char) (List Candidate)) (cp : Nat → Bool)
    (start_id n seed : Nat) :
    Nat → Nat → List Candidate → Except (List Char) (List WorkerMessage)
  | _, 0, acc => Except.ok [WorkerMessage.GenerationComplete acc]
  | b, k + 1, acc =>
    if cp b then Except.ok [WorkerMessage.GenerationError cancelledReason]
    else
      let batch_start := b * 50
      let batch_end := min (batch_start + 50) n
      match pipeline (start_id + batch_start) (batch_end - batch_start)
          ((seed + batch_start) % 2 ^ 64) with
      | Except.error e => Except.error e
      | Except.ok batch =>
        (worker_seq_panic_go pipeline cp start_id n seed (b + 1) k
          (acc ++ batch)).map
          (fun msgs => WorkerMessage.GenerationProgress batch_end n :: msgs)

/-- A full Sequential-mode request under the fallible-pipeline model. -/
def worker_sequential_panic (pipeline :
    Nat → Nat → Nat → Except (List Char) (List Candidate)) (cp : Nat → Bool)
    (start_id n seed : Nat) : Except (List Char) (List WorkerMessage) :=
  worker_seq_panic_go pipeline cp start_id n seed 0 (numBatches n) []

/-! ## Crowding distance (`src/optimization/pareto.rs`, lines 77–118) -/

/-- An `f32` crowding-distance value: positive infinity or a finite value. -/
inductive FDist where
  | inf
  | fin (q : ℚ)
  deriving Repr, DecidableEq

/-- `f32` addition restricted to the values `crowding_distance` produces:
positive infinity absorbs, finite values add (exactly, in the embedding; the
claims proved below distinguish only infinity from finiteness and are
insensitive to `f32` rounding). -/
def FDist.add : FDist → FDist → FDist
  | inf, _ => inf
  | _, inf => inf
  | fin a, fin b => fin (a + b)

/-- Overwrite the value stored under key `k` (the `HashMap::get_mut`
assignment; the keys in use are the pairwise-distinct front ids). -/
def setKey (l : List (Nat × FDist)) (k : Nat) (v : FDist) :
    List (Nat × FDist) :=
  l.map fun p => if p.1 == k then (p.1, v) else p

/-- Add `v` to the value stored under key `k` (the `*get_mut += dist`). -/
def addKey (l : List (Nat × FDist)) (k : Nat) (v : FDist) :
    List (Nat × FDist) :=
  l.map fun p => if p.1 == k then (p.1, p.2.add v) else p

/-- Insert `x` before the first element whose key is not smaller, keeping
elements drawn later in the original order behind it. -/
def insOrdered (key : Candidate → ℚ) (x : Candidate) :
    List Candidate → List Candidate
  | [] => [x]
  | y :: ys => if key x ≤ key y then x :: y :: ys else y :: insOrdered key x ys

/-- Rust's `Vec::sort_by` with the total comparator
`obj(a).partial_cmp(&obj(b))` is a stable sort; a stable sort by a total key
order has a unique output, reproduced by this left-to-right insertion. -/
def stableSortBy (key : Candidate → ℚ) : List Candidate → List Candidate
  | [] => []
  | x :: xs => insOrdered key x (stableSortBy key xs)

/-- One objective pass of `crowding_distance` (lines 95–115): sort the front
by the objective, set the two boundary members of the sorted order to
infinity, and — only when the objective's range is positive — add the
normalized neighbor gap to every interior member.  The source loop
`for i in 1..len-1` uses `sorted[i+1] − sorted[i−1]`; here `j = i − 1` runs
over `range (len − 2)`. -/
def crowdingPass (obj : Candidate → ℚ) (front : List Candidate)
    (dists : List (Nat × FDist)) : List (Nat × FDist) :=
  let sorted := stableSortBy obj front
  let first := sorted.headD default
  let last := sorted.getLastD default
  let dists := setKey dists first.id FDist.inf
  let dists := setKey dists last.id FDist.inf
  let obj_range := obj last - obj first
  if 0 < obj_range then
    (List.range (sorted.length - 2)).foldl (fun ds j =>
      let dist := (obj (sorted.getD (j + 2) default) -
        obj (sorted.getD j default)) / obj_range
      addKey ds (sorted.getD (j + 1) default).id (FDist.fin dist)) dists
  else dists

/-- The `objectives` vector of `crowding_distance` (lines 88–93): efficacy as
is, the three minimize-objectives negated so larger is uniformly better. -/
def crowding_objectives : List (Candidate → ℚ) :=
  [fun c => c.efficacy, fun c => -c.toxicity, fun c => -c.synthesis_cost,
   fun c => -c.manufacturing_cost]

/-- `crowding_distance` generalized over the objective list it loops over
(the list is a local constant in the source); the generalization is what lets
"objective `o` contributes nothing" be stated as equality with the run that
omits `o`. -/
def crowding_distance_objs (objs : List (Candidate → ℚ))
    (cands : List Candidate) (front_ids : List Nat) : List (Nat × FDist) :=
  let front := cands.filter fun c => front_ids.contains c.id
  if front.length ≤ 2 then front.map fun c => (c.id, FDist.inf)
  else objs.foldl (fun dists obj => crowdingPass obj front dists)
    (front.map fun c => (c.id, FDist.fin 0))

/-- `crowding_distance` of `src/optimization/pareto.rs` (lines 77–118).  The
source returns a `Vec<(usize, f32)>` collected from a `HashMap` in
unspecified order, so only the value stored per id is meaningful; the
embedding returns the entries in front order. -/
def crowding_distance (cands : List Candidate) (front_ids : List Nat) :
    List (Nat × FDist) :=
  crowding_distance_objs crowding_objectives cands front_ids

/-! ## Domination-count front extraction
(`src/optimization/pareto.rs`, lines 52–74) -/

/-- `domination_count[i]` of `pareto_front_ids_fast` (lines 59–67): how many
indices `j ≠ i` dominate candidate `i`. -/
def dominationCount (cands : List Candidate) (i : Nat) : Nat :=
  ((List.range cands.length).filter fun j =>
    j != i && dominates (cands.getD j default) (cands.getD i default)).length

/-- `pareto_front_ids_fast` of `src/optimization/pareto.rs` (lines 54–74):
delegates to the pairwise variant below 100 candidates, otherwise keeps the
indices with domination count zero. -/
def pareto_front_ids_fast (cands : List Candidate) : List Nat :=
  if cands.length < 100 then pareto_front_ids cands
  else
    ((List.range cands.length).filter fun i =>
      dominationCount cands i == 0).map fun i => (cands.getD i default).id

/-! ## Concrete fixtures used by witnesses and counterexamples -/

/-- The §8 end-to-end scenario with objective values scaled by 10 (which
preserves every comparison). -/
def demoCands : List Candidate :=
  [ { id := 0, smiles := [], efficacy := 9, toxicity := 1,
      synthesis_cost := 5, manufacturing_cost := 5, pareto := false },
    { id := 1, smiles := [], efficacy := 5, toxicity := 5,
      synthesis_cost := 1, manufacturing_cost := 1, pareto := false },
    { id := 2, smiles := [], efficacy := 6, toxicity := 4,
      synthesis_cost := 4, manufacturing_cost := 4, pareto := false },
    { id := 3, smiles := [], efficacy := 7, toxicity := 3,
      synthesis_cost := 3, manufacturing_cost := 3, pareto := false } ]

/-- A trivial concrete environment (constant draws), used only to witness the
environment-generic theorems at a concrete instance. -/
def toyEnv : GenEnv Nat :=
  { genBool := fun _ s => (false, s),
    genRange := fun lo _ s => (lo, s),
    seedFrom := fun n => n,
    genValid := fun s => ([], s),
    calcProps := fun _ s => ((0, 0, 0, 0), s) }

/-- Terminal events of the protocol: `Complete` and `Error` (the spec's
`Failed`); the embedding is faithful to the source enum, which has no
`Cancelled` event variant. -/
def isTerminal : WorkerMessage → Bool
  | WorkerMessage.GenerationComplete _ => true
  | WorkerMessage.GenerationError _ => true
  | _ => false

/-- A cancellation environment where the cancel signal becomes visible at the
batch-1 boundary check (i.e. after one full batch was generated). -/
def cancelAtOne : Nat → Bool := fun b => b == 1

/-- Three candidates sharing one constant objective (efficacy) while the
middle one, first in working-set order, is interior in every varying
objective. -/
def cands39 : List Candidate :=
  [ { id := 1, smiles := [], efficacy := 5, toxicity := 2,
      synthesis_cost := 2, manufacturing_cost := 2, pareto := false },
    { id := 2, smiles := [], efficacy := 5, toxicity := 1,
      synthesis_cost := 1, manufacturing_cost := 1, pareto := false },
    { id := 3, smiles := [], efficacy := 5, toxicity := 3,
      synthesis_cost := 3, manufacturing_cost := 3, pareto := false } ]

/-!
# Theorems

Everything above this point is a definition; everything below is a theorem
about those definitions.
-/

/-- No candidate dominates itself: `strictly_better` is false on a pair of
equal objective vectors. -/
theorem dominates_self (c : Candidate) : dominates c c = false := by
  simp [dominates]

/-- Two candidates with equal objective vectors dominate neither each other. -/
theorem dominates_of_eq_objectives (a b : Candidate)
    (he : a.efficacy = b.efficacy) (ht : a.toxicity = b.toxicity)
    (hs : a.synthesis_cost = b.synthesis_cost)
    (hm : a.manufacturing_cost = b.manufacturing_cost) :
    dominates a b = false ∧ dominates b a = false := by
  constructor <;> simp [dominates, he, ht, hs, hm]

/-- The §8 end-to-end scenario: front `{0, 1, 3}`, candidate `2` dominated. -/
theorem pareto_front_demo : pareto_front_ids demoCands = [0, 1, 3] := by decide

/-! ## Append-safety of `validate_smiles` -/

/-- Every list is a `isPrefixOf`-prefix of itself. -/
theorem isPrefixOf_self (l : List Char) : l.isPrefixOf l = true := by
  induction l with
  | nil => simp
  | cons c rest ih => simp [List.isPrefixOf_cons₂, ih]

/-- A prefix of `u ++ t` is a prefix of `u`, or it is all of `u` followed by a
prefix of `t`. -/
theorem isPrefixOf_append_cases (p u t : List Char)
    (h : p.isPrefixOf (u ++ t) = true) :
    p.isPrefixOf u = true ∨ ∃ q, p = u ++ q ∧ q.isPrefixOf t = true := by
  induction p generalizing u with
  | nil => exact Or.inl (by simp)
  | cons a p' ih =>
    cases u with
    | nil => exact Or.inr ⟨a :: p', rfl, h⟩
    | cons b u' =>
      rw [List.cons_append, List.isPrefixOf_cons₂, Bool.and_eq_true] at h
      obtain ⟨hab, h'⟩ := h
      have hab' : a = b := by exact eq_of_beq hab
      rcases ih u' h' with h1 | ⟨q, hpq, h2⟩
      · left
        rw [List.isPrefixOf_cons₂, Bool.and_eq_true]
        exact ⟨hab, h1⟩
      · right
        exact ⟨q, by rw [hab', List.cons_append, hpq], h2⟩

/-- A string that starts with `p` contains `p`. -/
theorem containsSub_of_isPrefixOf {p s : List Char}
    (h : p.isPrefixOf s = true) : containsSub p s = true := by
  cases s with
  | nil => exact h
  | cons c rest => simp [containsSub, h]

/-- `containsSub` extends from the tail to the whole list. -/
theorem containsSub_cons_of {p : List Char} (c : Char) {rest : List Char}
    (h : containsSub p rest = true) : containsSub p (c :: rest) = true := by
  simp [containsSub, h]

/-- An occurrence of `p` inside `s ++ t` lies inside `s`, inside `t`, or spans
the seam, in which case some proper nonempty suffix of `p` is a prefix of
`t`. -/
theorem containsSub_append_cases (p s t : List Char)
    (h : containsSub p (s ++ t) = true) :
    containsSub p s = true ∨ containsSub p t = true ∨
      ∃ i, 0 < i ∧ i < p.length ∧ (p.drop i).isPrefixOf t = true := by
  induction s with
  | nil => exact Or.inr (Or.inl h)
  | cons c s' ih =>
    rw [List.cons_append] at h
    rw [show containsSub p (c :: (s' ++ t)) =
          (p.isPrefixOf (c :: (s' ++ t)) || containsSub p (s' ++ t)) from rfl,
        Bool.or_eq_true] at h
    rcases h with hpre | hrest
    · rcases isPrefixOf_append_cases p (c :: s') t hpre with h1 | ⟨q, hpq, h2⟩
      · exact Or.inl (containsSub_of_isPrefixOf h1)
      · cases q with
        | nil =>
          rw [List.append_nil] at hpq
          exact Or.inl (containsSub_of_isPrefixOf (hpq ▸ isPrefixOf_self _))
        | cons d q' =>
          refine Or.inr (Or.inr ⟨(c :: s').length, by simp, ?_, ?_⟩)
          · rw [hpq, List.length_append]
            simp
          · rw [hpq, List.drop_left]
            exact h2
    · rcases ih hrest with h1 | h2
      · exact Or.inl (containsSub_cons_of c h1)
      · exact Or.inr h2

/-- `scanDepth` over an append is sequential composition of the two scans. -/
theorem scanDepth_append (s t : List Char) (d : Int) :
    scanDepth (s ++ t) d = (scanDepth s d).bind (fun e => scanDepth t e) := by
  induction s generalizing d with
  | nil => simp [scanDepth]
  | cons c rest ih =>
    rw [List.cons_append]
    show (if c == '(' then scanDepth (rest ++ t) (d + 1)
      else if c == ')' then
        if d - 1 < 0 then none else scanDepth (rest ++ t) (d - 1)
      else scanDepth (rest ++ t) d) = _
    by_cases h1 : c == '('
    · simp [scanDepth, h1, ih]
    · by_cases h2 : c == ')'
      · by_cases h3 : d - 1 < 0 <;> simp [scanDepth, h1, h2, h3, ih]
      · simp [scanDepth, h1, h2, ih]

/-- Every proper nonempty suffix of every forbidden pattern starts with a
`badHead` character (checked by enumeration). -/
theorem seam_heads :
    (invalidPatterns.all fun p => (List.range p.length).all fun i =>
      i == 0 || badHead ((p.drop i).headD ' ')) = true := by decide

/-- Pointwise form of `seam_heads`. -/
theorem seam_heads_mem {p : List Char} (hp : p ∈ invalidPatterns) {i : Nat}
    (h0 : 0 < i) (hlen : i < p.length) :
    badHead ((p.drop i).headD ' ') = true := by
  have h := seam_heads
  rw [List.all_eq_true] at h
  have h' := h p hp
  rw [List.all_eq_true] at h'
  have h'' := h' i (List.mem_range.mpr hlen)
  rcases Bool.or_eq_true _ _ |>.mp h'' with h1 | h1
  · rw [beq_iff_eq] at h1
    omega
  · exact h1

/-- Appending a `fragOK` fragment to a valid SMILES preserves validity.  This
is the workhorse behind the synthesizer validity claims: parenthesis balance
and digit parity compose across the append, a forbidden pattern cannot occur
inside either half, and it cannot span the seam because the fragment's first
character is not a `badHead` character. -/
theorem validate_append {s a : List Char} (hs : validate_smiles s = true)
    (ha : fragOK a = true) : validate_smiles (s ++ a) = true := by
  rw [validate_smiles, Bool.and_eq_true, Bool.and_eq_true, Bool.and_eq_true]
  rw [validate_smiles, Bool.and_eq_true, Bool.and_eq_true, Bool.and_eq_true] at hs
  rw [fragOK, Bool.and_eq_true, Bool.and_eq_true, Bool.and_eq_true] at ha
  obtain ⟨⟨⟨hne, hscan⟩, hcount⟩, hpat⟩ := hs
  obtain ⟨⟨⟨hascan, hacount⟩, hapat⟩, hahead⟩ := ha
  refine ⟨⟨⟨?_, ?_⟩, ?_⟩, ?_⟩
  · cases s with
    | nil => simp at hne
    | cons c rest => simp
  · rw [beq_iff_eq] at hscan hascan ⊢
    rw [scanDepth_append, hscan]
    exact hascan
  · rw [List.all_eq_true] at hcount hacount ⊢
    intro ch hch
    have h1 := hcount ch hch
    have h2 := hacount ch hch
    rw [beq_iff_eq] at h1 h2 ⊢
    rw [List.count_append]
    omega
  · rw [List.all_eq_true] at hpat hapat ⊢
    intro p hp
    have h1 := hpat p hp
    have h2 := hapat p hp
    rw [Bool.not_eq_eq_eq_not, Bool.not_true] at h1 h2 ⊢
    by_contra hcontra
    rw [Bool.not_eq_false] at hcontra
    rcases containsSub_append_cases p s a hcontra with hin | hin | ⟨i, hi0, hilen, hpre⟩
    · exact absurd hin (by simp [h1])
    · exact absurd hin (by simp [h2])
    · have hbad := seam_heads_mem hp hi0 hilen
      have hdropne : p.drop i ≠ [] := by
        rw [Ne, List.drop_eq_nil_iff]
        omega
      obtain ⟨d, q, hdq⟩ := List.exists_cons_of_ne_nil hdropne
      rw [hdq] at hpre hbad
      cases a with
      | nil => simp at hpre
      | cons c a' =>
        rw [List.isPrefixOf_cons₂, Bool.and_eq_true] at hpre
        have hdc : d = c := eq_of_beq hpre.1
        rw [List.headD_cons, hdc] at hbad
        simp [headSafeF, hbad] at hahead

/-- Every scaffold SMILES in the library is valid (by enumeration). -/
theorem scaffolds_validate :
    (DRUG_SCAFFOLDS.all fun sc => validate_smiles sc.smiles) = true := by decide

/-- Every scaffold SMILES is also a safe fragment to append (by
enumeration). -/
theorem scaffolds_fragOK :
    (DRUG_SCAFFOLDS.all fun sc => fragOK sc.smiles) = true := by decide

/-- Every substituent SMILES is a safe fragment (by enumeration). -/
theorem subs_fragOK :
    (SUBSTITUENTS.all fun sub => fragOK sub.2) = true := by decide

/-- Every linker is a safe fragment (by enumeration). -/
theorem linkers_fragOK : (linkers.all fragOK) = true := by decide

/-- Every fallback SMILES is valid (by enumeration). -/
theorem fallbacks_validate : (fallbackList.all validate_smiles) = true := by
  decide

/-! ## C2 — pairwise Pareto front extraction -/

/-- Among candidates with pairwise-distinct ids, distinct candidates have
distinct ids. -/
theorem ids_ne_of_ne {cands : List Candidate}
    (hids : cands.Pairwise (fun a b => a.id ≠ b.id)) {a b : Candidate}
    (ha : a ∈ cands) (hb : b ∈ cands) (hne : a ≠ b) : a.id ≠ b.id :=
  List.Pairwise.forall (fun {_ _} h => h.symm) hids ha hb hne

/-- **C2.**  For every finite list of candidates with pairwise-distinct ids,
`pareto_front_ids` returns exactly the set of ids of candidates dominated by
no other candidate (where `dominates` is the four-objective relation of
`pareto.rs`: at least as good everywhere and strictly better somewhere); and
two candidates equal on all four objectives dominate neither each other — so
both can appear in the returned set. -/
theorem C2_pareto_front_exact (cands : List Candidate)
    (hids : cands.Pairwise (fun a b => a.id ≠ b.id)) :
    (∀ x, x ∈ pareto_front_ids cands ↔
      ∃ c ∈ cands, c.id = x ∧
        ∀ other ∈ cands, other ≠ c → dominates other c = false) ∧
    (∀ a b : Candidate, a.efficacy = b.efficacy → a.toxicity = b.toxicity →
      a.synthesis_cost = b.synthesis_cost →
      a.manufacturing_cost = b.manufacturing_cost →
      dominates a b = false ∧ dominates b a = false) := by
  constructor
  · intro x
    rw [pareto_front_ids, List.mem_map]
    constructor
    · rintro ⟨c, hcmem, rfl⟩
      rw [List.mem_filter] at hcmem
      obtain ⟨hc, hpred⟩ := hcmem
      refine ⟨c, hc, rfl, ?_⟩
      intro other hother hne
      rw [List.all_eq_true] at hpred
      rcases Bool.or_eq_true _ _ |>.mp (hpred other hother) with h1 | h1
      · rw [beq_iff_eq] at h1
        exact absurd h1 (ids_ne_of_ne hids hother hc hne)
      · simpa using h1
    · rintro ⟨c, hc, rfl, hnodom⟩
      refine ⟨c, List.mem_filter.mpr ⟨hc, ?_⟩, rfl⟩
      rw [List.all_eq_true]
      intro other hother
      by_cases heq : other = c
      · subst heq
        simp
      · simp [hnodom other hother heq]
  · intro a b he ht hs hm
    exact dominates_of_eq_objectives a b he ht hs hm

/-- Witness for `C2_pareto_front_exact` at the §8 scenario. -/
theorem C2_pareto_front_exact_witness :
    (2 ∈ pareto_front_ids demoCands ↔
      ∃ c ∈ demoCands, c.id = 2 ∧
        ∀ other ∈ demoCands, other ≠ c → dominates other c = false) :=
  (C2_pareto_front_exact demoCands (by decide)).1 2

/-! ## C8 — the two front extractions agree -/

/-- In-range `getD` indexing lands in the list. -/
theorem getD_mem {α : Type} [Inhabited α] {l : List α} {i : Nat}
    (h : i < l.length) : l.getD i default ∈ l := by
  rw [List.getD_eq_getElem?_getD, List.getElem?_eq_getElem h]
  exact List.getElem_mem h

/-- With pairwise-distinct ids, distinct positions carry distinct ids. -/
theorem ids_ne_of_index_ne {cands : List Candidate}
    (hids : cands.Pairwise (fun a b => a.id ≠ b.id)) {i j : Nat}
    (hi : i < cands.length) (hj : j < cands.length) (hne : i ≠ j) :
    (cands.getD i default).id ≠ (cands.getD j default).id := by
  rw [List.getD_eq_getElem?_getD, List.getElem?_eq_getElem hi,
    List.getD_eq_getElem?_getD, List.getElem?_eq_getElem hj]
  rcases Nat.lt_or_ge i j with hlt | hge
  · simpa using (List.pairwise_iff_getElem.mp hids) i j hi hj hlt
  · have hlt : j < i := by omega
    simpa using ((List.pairwise_iff_getElem.mp hids) j i hj hi hlt).symm

/-- `domination_count[i] = 0` says exactly that no other index dominates
`i`. -/
theorem dominationCount_eq_zero_iff (cands : List Candidate) (i : Nat) :
    dominationCount cands i = 0 ↔
      ∀ j < cands.length, j ≠ i →
        dominates (cands.getD j default) (cands.getD i default) = false := by
  rw [dominationCount, List.length_eq_zero, List.filter_eq_nil_iff]
  constructor
  · intro h j hj hne
    have h2 := h j (List.mem_range.mpr hj)
    rw [Bool.and_eq_true, bne_iff_ne] at h2
    by_contra hcon
    rw [Bool.not_eq_false] at hcon
    exact h2 ⟨hne, hcon⟩
  · intro h j hjmem hpj
    rw [Bool.and_eq_true, bne_iff_ne] at hpj
    obtain ⟨hne, hdom⟩ := hpj
    rw [h j (List.mem_range.mp hjmem) hne] at hdom
    simp at hdom

/-- **C8.**  For every list of candidates with pairwise-distinct ids, the
pairwise traversal `pareto_front_ids` and the domination-count variant
`pareto_front_ids_fast` return exactly the same set of ids. -/
theorem C8_fast_front_agrees (cands : List Candidate)
    (hids : cands.Pairwise (fun a b => a.id ≠ b.id)) :
    ∀ x, x ∈ pareto_front_ids_fast cands ↔ x ∈ pareto_front_ids cands := by
  intro x
  rw [pareto_front_ids_fast]
  by_cases hlen : cands.length < 100
  · rw [if_pos hlen]
  · rw [if_neg hlen, List.mem_map, pareto_front_ids, List.mem_map]
    constructor
    · rintro ⟨i, himem, rfl⟩
      rw [List.mem_filter, List.mem_range] at himem
      obtain ⟨hirange, hcount⟩ := himem
      rw [beq_iff_eq] at hcount
      have hall := (dominationCount_eq_zero_iff cands i).mp hcount
      refine ⟨cands.getD i default, List.mem_filter.mpr ⟨getD_mem hirange, ?_⟩,
        rfl⟩
      rw [List.all_eq_true]
      intro other hother
      obtain ⟨j, hj, hgj⟩ := List.mem_iff_getElem.mp hother
      have hgj' : cands.getD j default = other := by
        rw [List.getD_eq_getElem?_getD, List.getElem?_eq_getElem hj,
          Option.getD_some, hgj]
      by_cases hji : j = i
      · subst hji
        rw [Bool.or_eq_true, beq_iff_eq]
        exact Or.inl (by rw [hgj'])
      · rw [Bool.or_eq_true]
        refine Or.inr ?_
        rw [← hgj', hall j hj hji]
        rfl
    · rintro ⟨c, hcmem, rfl⟩
      rw [List.mem_filter] at hcmem
      obtain ⟨hc, hpred⟩ := hcmem
      obtain ⟨i, hi, hgi⟩ := List.mem_iff_getElem.mp hc
      have hgi' : cands.getD i default = c := by
        rw [List.getD_eq_getElem?_getD, List.getElem?_eq_getElem hi,
          Option.getD_some, hgi]
      refine ⟨i, List.mem_filter.mpr ⟨List.mem_range.mpr hi, ?_⟩,
        by rw [hgi']⟩
      rw [beq_iff_eq, dominationCount_eq_zero_iff]
      intro j hj hne
      rw [List.all_eq_true] at hpred
      have hmem := getD_mem (l := cands) hj
      have h := hpred _ hmem
      rw [Bool.or_eq_true, beq_iff_eq] at h
      rcases h with hid | hdom
      · have := ids_ne_of_index_ne hids hj hi hne
        rw [hgi'] at this
        exact absurd hid this
      · rw [hgi']
        simpa using hdom

/-- Witness for `C8_fast_front_agrees` at the §8 scenario. -/
theorem C8_fast_front_agrees_witness :
    (2 ∈ pareto_front_ids_fast demoCands ↔ 2 ∈ pareto_front_ids demoCands) :=
  C8_fast_front_agrees demoCands (by decide) 2

/-! ## C7 — the synthesizer only hands valid structures to the pipeline -/

/-- `getD` returns a list element or the supplied fallback. -/
theorem getD_mem_or_eq {α : Type} (l : List α) (i : Nat) (d : α) :
    l.getD i d ∈ l ∨ l.getD i d = d := by
  by_cases h : i < l.length
  · left
    rw [List.getD_eq_getElem?_getD, List.getElem?_eq_getElem h]
    exact List.getElem_mem h
  · right
    rw [List.getD_eq_getElem?_getD, List.getElem?_eq_none (by omega)]
    rfl

/-- Any substituent the loop can pick up (fallback arm included) is a safe
fragment. -/
theorem fragOK_subsGetD (j : Nat) :
    fragOK (SUBSTITUENTS.getD j ([], [])).2 = true := by
  rcases getD_mem_or_eq SUBSTITUENTS j ([], []) with hmem | heq
  · exact (List.all_eq_true.mp subs_fragOK) _ hmem
  · rw [heq]
    decide

/-- Any linker the hybrid generator can pick up is a safe fragment. -/
theorem fragOK_linkersGetD (j : Nat) :
    fragOK (linkers.getD j []) = true := by
  rcases getD_mem_or_eq linkers j [] with hmem | heq
  · exact (List.all_eq_true.mp linkers_fragOK) _ hmem
  · rw [heq]
    decide

/-- The substituent loop of `generate_from_scaffold` preserves validity. -/
theorem scaffoldSubLoop_validate {σ : Type} (env : GenEnv σ) :
    ∀ (k : Nat) (smiles : List Char) (rng : σ),
      validate_smiles smiles = true →
      validate_smiles (scaffoldSubLoop env k smiles rng).1 = true := by
  intro k
  induction k with
  | zero => intro smiles rng h; exact h
  | succ k ih =>
    intro smiles rng h
    rw [scaffoldSubLoop]
    apply ih
    by_cases hc : (env.genBool (1/2)
        (env.genRange 0 SUBSTITUENTS.length rng).2).1 = true
    · rw [if_pos hc]
      exact validate_append h (fragOK_subsGetD _)
    · rw [if_neg hc]
      exact h

/-- `generate_from_scaffold` always returns a valid structure (under rand's
range contract). -/
theorem generate_from_scaffold_validate {σ : Type} (env : GenEnv σ)
    (h : env.RangeOk) (rng : σ) :
    validate_smiles (generate_from_scaffold env rng).1 = true := by
  rw [generate_from_scaffold]
  apply scaffoldSubLoop_validate
  have hr := (h 0 DRUG_SCAFFOLDS.length rng (by decide)).2
  exact (List.all_eq_true.mp scaffolds_validate) _ (getD_mem hr)

/-- `generate_hybrid_scaffold` always returns a valid structure (under rand's
range contract). -/
theorem generate_hybrid_scaffold_validate {σ : Type} (env : GenEnv σ)
    (h : env.RangeOk) (rng : σ) :
    validate_smiles (generate_hybrid_scaffold env rng).1 = true := by
  rw [generate_hybrid_scaffold]
  have h1 := (h 0 DRUG_SCAFFOLDS.length rng (by decide)).2
  have hs1 : validate_smiles
      (DRUG_SCAFFOLDS.getD (env.genRange 0 DRUG_SCAFFOLDS.length rng).1
        default).smiles = true :=
    (List.all_eq_true.mp scaffolds_validate) _ (getD_mem h1)
  have h2 := (h 0 DRUG_SCAFFOLDS.length
    (env.genRange 0 DRUG_SCAFFOLDS.length rng).2 (by decide)).2
  have hs2 : fragOK
      (DRUG_SCAFFOLDS.getD (env.genRange 0 DRUG_SCAFFOLDS.length
        (env.genRange 0 DRUG_SCAFFOLDS.length rng).2).1 default).smiles
      = true :=
    (List.all_eq_true.mp scaffolds_fragOK) _ (getD_mem h2)
  split
  · split
    · exact validate_append (validate_append hs1 (fragOK_linkersGetD _)) hs2
    · exact validate_append hs1 (fragOK_linkersGetD _)
  · exact hs1

/-- Whatever the retry loop accepts was accepted by `validate_smiles`. -/
theorem safeLoop_some_validate {σ : Type} (env : GenEnv σ) :
    ∀ (k : Nat) (rng : σ) (s : List Char) (r : σ),
      safeLoop env k rng = (some s, r) → validate_smiles s = true := by
  intro k
  induction k with
  | zero => intro rng s r h; exact absurd h (by simp [safeLoop])
  | succ k ih =>
    intro rng s r h
    rw [safeLoop] at h
    by_cases hv : validate_smiles (env.genValid rng).1 = true
    · rw [if_pos hv] at h
      cases h
      exact hv
    · rw [if_neg hv] at h
      exact ih _ _ _ h

/-- `generate_safe_smiles` always returns a valid structure: either an attempt
that passed `validate_smiles`, or a member of the hard-coded fallback list,
every one of which is valid.  The attempt generator `genValid` is arbitrary
here, so this covers every from-scratch synthesis strategy. -/
theorem generate_safe_smiles_validate {σ : Type} (env : GenEnv σ)
    (h : env.RangeOk) (rng : σ) :
    validate_smiles (generate_safe_smiles env rng).1 = true := by
  rw [generate_safe_smiles]
  rcases hloop : safeLoop env 5 rng with ⟨o, rng'⟩
  cases o with
  | some s => exact safeLoop_some_validate env 5 rng s rng' hloop
  | none =>
    have hr := (h 0 fallbackList.length rng' (by decide)).2
    exact (List.all_eq_true.mp fallbacks_validate) _ (getD_mem hr)

/-- **C7.**  For every random source obeying rand's range contract and every
random-source state, the structure string the synthesizer hands to the
per-item generation pipeline — under the scaffold, hybrid-scaffold and
safe-random strategies alike, the 5-attempt retry and hard-coded fallback
included — satisfies `validate_smiles`. -/
theorem C7_synthesizer_output_valid {σ : Type} (env : GenEnv σ)
    (h : env.RangeOk) (rng : σ) :
    validate_smiles (item_smiles env rng).1 = true := by
  rw [item_smiles]
  by_cases h1 : (env.genBool (6/10) rng).1 = true
  · rw [if_pos h1]
    exact generate_from_scaffold_validate env h _
  · rw [if_neg h1]
    by_cases h2 : (env.genBool (3/10) (env.genBool (6/10) rng).2).1 = true
    · rw [if_pos h2]
      exact generate_hybrid_scaffold_validate env h _
    · rw [if_neg h2]
      exact generate_safe_smiles_validate env h _

/-- Witness for `C7_synthesizer_output_valid` at a concrete environment. -/
theorem C7_synthesizer_output_valid_witness :
    validate_smiles (item_smiles toyEnv 0).1 = true :=
  C7_synthesizer_output_valid toyEnv
    (fun lo _ _ hlt => ⟨Nat.le_refl lo, hlt⟩) 0

/-! ## C6 — valence accounting in `MoleculeBuilder` -/

/-- `modifyAt` preserves length. -/
theorem length_modifyAt (l : List BuilderAtom) (i : Nat)
    (f : BuilderAtom → BuilderAtom) : (modifyAt l i f).length = l.length := by
  induction l generalizing i with
  | nil => rfl
  | cons x xs ih =>
    cases i with
    | zero => rfl
    | succ j => simp [modifyAt, ih]

/-- Reading the modified index (in range) sees the update. -/
theorem getD_modifyAt_self {l : List BuilderAtom} {i : Nat}
    (h : i < l.length) (f : BuilderAtom → BuilderAtom) :
    (modifyAt l i f).getD i default = f (l.getD i default) := by
  induction l generalizing i with
  | nil => simp at h
  | cons x xs ih =>
    cases i with
    | zero => rfl
    | succ j =>
      have : j < xs.length := by simpa using h
      simpa [modifyAt] using ih this

/-- Reading any other index is unaffected. -/
theorem getD_modifyAt_ne {l : List BuilderAtom} {i j : Nat} (hne : i ≠ j)
    (f : BuilderAtom → BuilderAtom) :
    (modifyAt l i f).getD j default = l.getD j default := by
  induction l generalizing i j with
  | nil => cases i <;> rfl
  | cons x xs ih =>
    cases i with
    | zero =>
      cases j with
      | zero => exact absurd rfl hne
      | succ j' => rfl
    | succ i' =>
      cases j with
      | zero => rfl
      | succ j' => simpa [modifyAt] using ih (by omega)

/-- Index form of the valence invariant. -/
theorem valenceInvariant_iff_getD (m : MoleculeBuilder) :
    ValenceInvariant m ↔ ∀ i < m.atoms.length,
      (m.atoms.getD i default).used_valence ≤
        (m.atoms.getD i default).max_valence := by
  constructor
  · intro h i hi
    exact h _ (getD_mem hi)
  · intro h a ha
    obtain ⟨i, hi, hgi⟩ := List.mem_iff_getElem.mp ha
    have : m.atoms.getD i default = a := by
      rw [List.getD_eq_getElem?_getD, List.getElem?_eq_getElem hi,
        Option.getD_some, hgi]
    rw [← this]
    exact h i hi

/-- Adding an atom preserves the invariant: the new atom starts with zero used
valence. -/
theorem add_atom_invariant {m : MoleculeBuilder} (hinv : ValenceInvariant m)
    (s : List Char) (v : Nat) : ValenceInvariant (m.add_atom s v).1 := by
  intro a ha
  rw [MoleculeBuilder.add_atom] at ha
  rcases List.mem_append.mp ha with h | h
  · exact hinv a h
  · rw [List.mem_singleton] at h
    subst h
    exact Nat.zero_le _

/-- Reading a `bump`ed atom. -/
theorem bump_used (a : BuilderAtom) (o : Nat) :
    (a.bump o).used_valence = a.used_valence + o := rfl

/-- `bump` leaves the maximum valence unchanged. -/
theorem bump_max (a : BuilderAtom) (o : Nat) :
    (a.bump o).max_valence = a.max_valence := rfl

/-- A successful `add_bond` with distinct endpoints preserves the invariant;
a failed one returns the builder unchanged, which trivially preserves it. -/
theorem add_bond_invariant {m : MoleculeBuilder} (hinv : ValenceInvariant m)
    {f t : Nat} (o : Nat) (hne : f ≠ t) :
    ValenceInvariant (m.add_bond f t o).1 := by
  rw [MoleculeBuilder.add_bond]
  by_cases h1 : m.atoms.length ≤ f ∨ m.atoms.length ≤ t
  · rw [if_pos h1]
    exact hinv
  · rw [if_neg h1]
    by_cases h2 : (! (m.atoms.getD f default).can_bond o) = true ∨
        (! (m.atoms.getD t default).can_bond o) = true
    · rw [if_pos h2]
      exact hinv
    · rw [if_neg h2]
      push_neg at h1 h2
      obtain ⟨hf, ht⟩ := h1
      obtain ⟨hcf, hct⟩ := h2
      have hdf : o ≤ (m.atoms.getD f default).max_valence -
          (m.atoms.getD f default).used_valence := by
        rcases Bool.eq_false_or_eq_true ((m.atoms.getD f default).can_bond o)
          with hb | hb
        · simpa [BuilderAtom.can_bond, BuilderAtom.available_valence] using hb
        · exact absurd (by rw [hb]; rfl) hcf
      have hdt : o ≤ (m.atoms.getD t default).max_valence -
          (m.atoms.getD t default).used_valence := by
        rcases Bool.eq_false_or_eq_true ((m.atoms.getD t default).can_bond o)
          with hb | hb
        · simpa [BuilderAtom.can_bond, BuilderAtom.available_valence] using hb
        · exact absurd (by rw [hb]; rfl) hct
      have hfin := (valenceInvariant_iff_getD m).mp hinv f hf
      have htin := (valenceInvariant_iff_getD m).mp hinv t ht
      rw [valenceInvariant_iff_getD]
      intro i hi
      simp only [length_modifyAt] at hi
      by_cases hit : i = t
      · subst hit
        rw [getD_modifyAt_self (by rw [length_modifyAt]; exact hi),
          getD_modifyAt_ne hne, bump_used, bump_max]
        omega
      · rw [getD_modifyAt_ne (fun h => hit h.symm)]
        by_cases hif : i = f
        · subst hif
          rw [getD_modifyAt_self hi, bump_used, bump_max]
          omega
        · rw [getD_modifyAt_ne (fun h => hif h.symm)]
          exact (valenceInvariant_iff_getD m).mp hinv i hi

/-- The empty builder satisfies the invariant. -/
theorem valenceInvariant_new : ValenceInvariant MoleculeBuilder.new := by
  intro a ha
  simp [MoleculeBuilder.new] at ha

/-- Folding any self-bond-free construction suffix preserves the invariant. -/
theorem foldl_valence_invariant :
    ∀ (ops : List BuildOp) (m : MoleculeBuilder), ValenceInvariant m →
      (∀ op ∈ ops, ∀ f t o, op = BuildOp.addBond f t o → f ≠ t) →
      ValenceInvariant (ops.foldl runOp m) := by
  intro ops
  induction ops with
  | nil => intro m hm _; exact hm
  | cons op rest ih =>
    intro m hm hops
    rw [List.foldl_cons]
    refine ih _ ?_ (fun x hx => hops x (List.mem_cons_of_mem _ hx))
    cases op with
    | addAtom s v => exact add_atom_invariant hm s v
    | addBond f t o =>
      exact add_bond_invariant hm o
        (hops _ (List.mem_cons_self _ _) f t o rfl)

/-- **C6 (amended).**  For every construction sequence whose bond additions
all have distinct endpoints (as every `add_bond` call site in the repository
does), the valence invariant holds at every point of the construction;
`add_bond` succeeds only when both endpoints are in bounds and can absorb the
requested order; and a rejected `add_bond` returns the builder — atoms, bonds
and ring closures — completely unchanged.  (The distinct-endpoint hypothesis
is forced by `C6_counterexample`: a self-bond adds its order to the same atom
twice after checking capacity for it only once.) -/
theorem C6_valence_invariant (ops : List BuildOp) (hops : NoSelfBonds ops) :
    (∀ pre : List BuildOp, pre <+: ops → ValenceInvariant (runOps pre)) ∧
    (∀ (m : MoleculeBuilder) (f t o : Nat),
      (m.add_bond f t o).2 = true →
        f < m.atoms.length ∧ t < m.atoms.length ∧
        (m.atoms.getD f default).can_bond o = true ∧
        (m.atoms.getD t default).can_bond o = true) ∧
    (∀ (m : MoleculeBuilder) (f t o : Nat),
      (m.add_bond f t o).2 = false → (m.add_bond f t o).1 = m) := by
  refine ⟨?_, ?_, ?_⟩
  · intro pre hpre
    exact foldl_valence_invariant pre MoleculeBuilder.new valenceInvariant_new
      (fun op hop => hops op (hpre.subset hop))
  · intro m f t o hsucc
    rw [MoleculeBuilder.add_bond] at hsucc
    by_cases h1 : m.atoms.length ≤ f ∨ m.atoms.length ≤ t
    · rw [if_pos h1] at hsucc
      simp at hsucc
    · rw [if_neg h1] at hsucc
      by_cases h2 : (! (m.atoms.getD f default).can_bond o) = true ∨
          (! (m.atoms.getD t default).can_bond o) = true
      · rw [if_pos h2] at hsucc
        simp at hsucc
      · push_neg at h1 h2
        obtain ⟨hcf, hct⟩ := h2
        refine ⟨by omega, by omega, ?_, ?_⟩
        · rcases Bool.eq_false_or_eq_true
            ((m.atoms.getD f default).can_bond o) with hb | hb
          · exact hb
          · exact absurd (by rw [hb]; rfl) hcf
        · rcases Bool.eq_false_or_eq_true
            ((m.atoms.getD t default).can_bond o) with hb | hb
          · exact hb
          · exact absurd (by rw [hb]; rfl) hct
  · intro m f t o hfail
    rw [MoleculeBuilder.add_bond] at hfail ⊢
    by_cases h1 : m.atoms.length ≤ f ∨ m.atoms.length ≤ t
    · rw [if_pos h1]
    · rw [if_neg h1] at hfail ⊢
      by_cases h2 : (! (m.atoms.getD f default).can_bond o) = true ∨
          (! (m.atoms.getD t default).can_bond o) = true
      · rw [if_pos h2]
      · rw [if_neg h2] at hfail
        simp at hfail

/-- Witness for `C6_valence_invariant`: a small fully-checked construction
(two carbons joined by a double bond). -/
theorem C6_valence_invariant_witness :
    ValenceInvariant (runOps
      [BuildOp.addAtom ['C'] 4, BuildOp.addAtom ['C'] 4,
       BuildOp.addBond 0 1 2]) :=
  (C6_valence_invariant
    [BuildOp.addAtom ['C'] 4, BuildOp.addAtom ['C'] 4,
     BuildOp.addBond 0 1 2]
    (by intro op hop f t o heq
        subst heq
        simp only [List.mem_cons, List.not_mem_nil, or_false] at hop
        rcases hop with h | h | h <;> simp_all)).1
    _ (List.prefix_refl _)

/-- **C6 counterexample.**  The claim as stated quantifies over *every*
sequence of `add_atom`/`add_bond` operations.  A self-bond refutes it: on a
one-atom builder holding a fluorine of maximum valence 1, `add_bond(0, 0, 1)`
passes the capacity check (`can_bond` is asked twice about the same atom with
available valence 1) and then adds the order twice, leaving used valence 2 >
max valence 1 — and the call reports success, not rejection. -/
theorem C6_counterexample :
    ¬ ValenceInvariant
        (runOps [BuildOp.addAtom ['F'] 1, BuildOp.addBond 0 0 1]) ∧
    ((runOps [BuildOp.addAtom ['F'] 1]).add_bond 0 0 1).2 = true ∧
    ((runOps [BuildOp.addAtom ['F'] 1, BuildOp.addBond 0 0 1]).atoms.getD 0
        default).used_valence = 2 ∧
    ((runOps [BuildOp.addAtom ['F'] 1, BuildOp.addBond 0 0 1]).atoms.getD 0
        default).max_valence = 1 := by
  refine ⟨?_, by decide, by decide, by decide⟩
  intro hinv
  have := hinv ((runOps [BuildOp.addAtom ['F'] 1,
    BuildOp.addBond 0 0 1]).atoms.getD 0 default) (getD_mem (by decide))
  revert this
  decide

/-! ## C3 — Parallel mode is schedule-independent and reproducible -/

/-- Looking up an index that some execution unit processed returns exactly
the item computed for that index, whatever the processing order was. -/
theorem lookup_map_self {β : Type} (f : Nat → β) :
    ∀ (sched : List Nat) (i : Nat), i ∈ sched →
      (sched.map fun j => (j, f j)).lookup i = some (f i) := by
  intro sched
  induction sched with
  | nil => intro i h; simp at h
  | cons j rest ih =>
    intro i h
    rw [List.map_cons, List.lookup]
    by_cases hij : i = j
    · subst hij
      simp
    · rw [show (i == j) = false from beq_eq_false_iff_ne.mpr hij]
      refine ih i ?_
      rcases List.mem_cons.mp h with h | h
      · exact absurd h hij
      · exact h

/-- **C3.**  For every environment, request `(start_id, n, seed)` and any two
execution schedules that each process every index of `[0, n)` exactly once
(in arbitrary order, modelling arbitrary work distribution across execution
units and thread counts), the assembled candidate lists are identical — and
both equal the canonical per-index map `generate_candidates_parallel`, whose
items depend only on `(start_id, seed, i)` through the per-index seed.
Running the same request twice therefore yields identical ordered lists of
`(id, structure, efficacy, toxicity, synthesis_cost, manufacturing_cost)`
tuples. -/
theorem C3_parallel_deterministic {σ : Type} (env : GenEnv σ)
    (start_id n seed : Nat) (sched₁ sched₂ : List Nat)
    (h1 : sched₁.Perm (List.range n)) (h2 : sched₂.Perm (List.range n)) :
    runWithSchedule env start_id n seed sched₁ =
      runWithSchedule env start_id n seed sched₂ ∧
    runWithSchedule env start_id n seed sched₁ =
      generate_candidates_parallel env start_id n seed := by
  have key : ∀ sched : List Nat, sched.Perm (List.range n) →
      runWithSchedule env start_id n seed sched =
        generate_candidates_parallel env start_id n seed := by
    intro sched hp
    rw [runWithSchedule, generate_candidates_parallel]
    apply List.map_congr_left
    intro i hi
    rw [lookup_map_self _ sched i (hp.mem_iff.mpr hi), Option.getD_some]
  exact ⟨(key _ h1).trans (key _ h2).symm, key _ h1⟩

/-- Witness for `C3_parallel_deterministic`: two shuffled 3-index schedules. -/
theorem C3_parallel_deterministic_witness :
    runWithSchedule toyEnv 0 3 42 [2, 0, 1] =
      runWithSchedule toyEnv 0 3 42 [1, 2, 0] ∧
    runWithSchedule toyEnv 0 3 42 [2, 0, 1] =
      generate_candidates_parallel toyEnv 0 3 42 :=
  C3_parallel_deterministic toyEnv 0 3 42 [2, 0, 1] [1, 2, 0]
    (by decide) (by decide)

/-! ## C4 — the per-index seed is a wrapping add, not an XOR -/

/-- **C4 counterexample.**  The claim says the per-item seed is
`seed ⊕ (i * 31337)`; the code computes `seed.wrapping_add(i * 31337)`.  At
`seed = 1`, `i = 1` the two differ: `1 + 31337 = 31338` but
`1 ⊕ 31337 = 31336`. -/
theorem C4_counterexample : thread_seed 1 1 ≠ thread_seed_spec 1 1 := by decide

/-- **C4 (amended).**  In Parallel mode, the item at every index `i < n` is
generated from the per-index seed `(seed + i * 31337) mod 2⁶⁴` — the request
seed plus the product of the index and the large odd constant 31337, with
wrapping `u64` addition (not XOR). -/
theorem C4_thread_seed_wrapping_add {σ : Type} (env : GenEnv σ)
    (start_id n seed i : Nat) (h : i < n) :
    (generate_candidates_parallel env start_id n seed).getD i default =
      (generate_one env (start_id + i)
        (env.seedFrom ((seed + i * 31337) % 2 ^ 64))).1 := by
  rw [generate_candidates_parallel, List.getD_eq_getElem?_getD,
    List.getElem?_map, List.getElem?_range h]
  rfl

/-- Witness for `C4_thread_seed_wrapping_add` at index 1 of a 2-item run. -/
theorem C4_thread_seed_wrapping_add_witness :
    (generate_candidates_parallel toyEnv 0 2 7).getD 1 default =
      (generate_one toyEnv (0 + 1)
        (toyEnv.seedFrom ((7 + 1 * 31337) % 2 ^ 64))).1 :=
  C4_thread_seed_wrapping_add toyEnv 0 2 7 1 (by decide)

/-! ## C10 — Sequential mode is deterministic with per-batch seed
`seed + batch_start` -/

/-- Shifting a map over `range (k+1)` peels off the first index. -/
theorem range_map_shift {β : Type} (f : Nat → β) (b k : Nat) :
    (List.range (k + 1)).map (fun j => f (b + j)) =
      f b :: (List.range k).map (fun j => f ((b + 1) + j)) := by
  rw [List.range_succ_eq_map, List.map_cons, List.map_map]
  congr 1
  all_goals try simp
  all_goals try (intro a _; congr 1; omega)

/-- Closed form of an uncancelled Sequential run: one `Progress` per batch in
order, then exactly one `Complete` carrying the concatenation of the batches,
batch `b` generated by `generate_candidates` with start id
`start_id + b * 50`, count `min (b * 50 + 50) n − b * 50` and per-batch seed
`seed + b * 50` (wrapping `u64` addition). -/
theorem worker_seq_go_nocancel {σ : Type} (env : GenEnv σ) (cp : Nat → Bool)
    (start_id n seed : Nat) (hc : ∀ j, cp j = false) :
    ∀ (k b : Nat) (acc : List Candidate),
      worker_seq_go env cp start_id n seed b k acc =
        ((List.range k).map fun j =>
          WorkerMessage.GenerationProgress (min ((b + j) * 50 + 50) n) n) ++
        [WorkerMessage.GenerationComplete (acc ++
          ((List.range k).map fun j =>
            generate_candidates env (start_id + (b + j) * 50)
              (min ((b + j) * 50 + 50) n - (b + j) * 50)
              ((seed + (b + j) * 50) % 2 ^ 64)).flatten)] := by
  intro k
  induction k with
  | zero =>
    intro b acc
    simp [worker_seq_go]
  | succ k ih =>
    intro b acc
    simp only [worker_seq_go, hc b, Bool.false_eq_true, if_false]
    rw [ih (b + 1)]
    rw [range_map_shift
      (fun j => WorkerMessage.GenerationProgress (min (j * 50 + 50) n) n) b k]
    rw [range_map_shift
      (fun j => generate_candidates env (start_id + j * 50)
        (min (j * 50 + 50) n - j * 50) ((seed + j * 50) % 2 ^ 64)) b k]
    rw [List.flatten_cons, List.cons_append]
    rw [List.append_assoc]

/-- **C10.**  An uncancelled Sequential request is fully deterministic: its
event stream is a function of `(start_id, n, seed)` alone — independent of
the cancellation environment, so two runs of the same request are identical —
and the single `Complete` event carries exactly the concatenation of the
batches, batch `b` generated with per-batch random seed `seed + b * 50`
(request seed plus the batch's starting index, wrapping `u64` addition) and
ids `start_id + index`. -/
theorem C10_sequential_deterministic {σ : Type} (env : GenEnv σ)
    (cp₁ cp₂ : Nat → Bool) (start_id n seed : Nat)
    (hc1 : ∀ b, cp₁ b = false) (hc2 : ∀ b, cp₂ b = false) :
    worker_sequential env cp₁ start_id n seed =
      worker_sequential env cp₂ start_id n seed ∧
    worker_sequential env cp₁ start_id n seed =
      ((List.range (numBatches n)).map fun b =>
        WorkerMessage.GenerationProgress (min (b * 50 + 50) n) n) ++
      [WorkerMessage.GenerationComplete
        (sequential_batches env start_id n seed)] := by
  have key : ∀ cp : Nat → Bool, (∀ b, cp b = false) →
      worker_sequential env cp start_id n seed =
        ((List.range (numBatches n)).map fun b =>
          WorkerMessage.GenerationProgress (min (b * 50 + 50) n) n) ++
        [WorkerMessage.GenerationComplete
          (sequential_batches env start_id n seed)] := by
    intro cp hc
    rw [worker_sequential,
      worker_seq_go_nocancel env cp start_id n seed hc (numBatches n) 0 []]
    simp only [Nat.zero_add, List.nil_append]
    rw [sequential_batches]
  exact ⟨(key cp₁ hc1).trans (key cp₂ hc2).symm, key cp₁ hc1⟩

/-- Witness for `C10_sequential_deterministic`: a 120-item request (three
batches) under two cancel-free environments. -/
theorem C10_sequential_deterministic_witness :
    worker_sequential toyEnv (fun _ => false) 0 120 42 =
      worker_sequential toyEnv (fun _ => false) 0 120 42 ∧
    worker_sequential toyEnv (fun _ => false) 0 120 42 =
      ((List.range (numBatches 120)).map fun b =>
        WorkerMessage.GenerationProgress (min (b * 50 + 50) 120) 120) ++
      [WorkerMessage.GenerationComplete
        (sequential_batches toyEnv 0 120 42)] :=
  C10_sequential_deterministic toyEnv (fun _ => false) (fun _ => false)
    0 120 42 (fun _ => rfl) (fun _ => rfl)

/-! ## C1 — Sequential cancellation: one terminal event, which is
`GenerationError "Cancelled"` -/

/-- If the cancel signal is visible at some boundary the loop will reach,
the run's only terminal event is `GenerationError "Cancelled"`, and it comes
last. -/
theorem worker_seq_go_cancel {σ : Type} (env : GenEnv σ) (cp : Nat → Bool)
    (start_id n seed : Nat) :
    ∀ (k b : Nat) (acc : List Candidate),
      (∃ j, j < k ∧ cp (b + j) = true) →
      (worker_seq_go env cp start_id n seed b k acc).filter isTerminal =
        [WorkerMessage.GenerationError cancelledReason] ∧
      (worker_seq_go env cp start_id n seed b k acc).getLast? =
        some (WorkerMessage.GenerationError cancelledReason) := by
  intro k
  induction k with
  | zero =>
    rintro b acc ⟨j, hj, _⟩
    omega
  | succ k ih =>
    rintro b acc ⟨j, hj, hcj⟩
    cases hb : cp b with
    | true =>
      simp only [worker_seq_go, hb, if_true]
      exact ⟨rfl, rfl⟩
    | false =>
      simp only [worker_seq_go, hb, Bool.false_eq_true, if_false]
      have hj0 : j ≠ 0 := by
        rintro rfl
        rw [Nat.add_zero] at hcj
        rw [hcj] at hb
        cases hb
      obtain ⟨j', rfl⟩ : ∃ j', j = j' + 1 := ⟨j - 1, by omega⟩
      have hcj' : cp ((b + 1) + j') = true := by
        have : (b + 1) + j' = b + (j' + 1) := by omega
        rw [this]
        exact hcj
      have hrec := ih (b + 1)
        (acc ++ generate_candidates env (start_id + b * 50)
          (min (b * 50 + 50) n - b * 50) ((seed + b * 50) % 2 ^ 64))
        ⟨j', by omega, hcj'⟩
      refine ⟨?_, ?_⟩
      · rw [List.filter_cons,
          show isTerminal (WorkerMessage.GenerationProgress
            (min (b * 50 + 50) n) n) = false from rfl]
        simp only [Bool.false_eq_true, if_false]
        exact hrec.1
      · rcases hr : worker_seq_go env cp start_id n seed (b + 1) k
            (acc ++ generate_candidates env (start_id + b * 50)
              (min (b * 50 + 50) n - b * 50) ((seed + b * 50) % 2 ^ 64)) with
          _ | ⟨y, ys⟩
        · exact absurd (hr ▸ hrec.1) (by simp)
        · rw [List.getLast?_cons_cons]
          rw [hr] at hrec
          exact hrec.2

/-- **C1 (amended).**  For every Sequential-mode request with a cancellation
signal pending at some batch boundary the loop reaches, the worker stops,
discards every candidate generated so far (no `Complete` event is ever
emitted, so no candidate reaches the caller — including those of completed
batches), and emits exactly one terminal event, which is
`GenerationError "Cancelled"`: the `WorkerMessage` type of the source has no
distinct `Cancelled` variant, so cancellation is surfaced through the error
event, not as an event distinct from failure. -/
theorem C1_cancel_discards_and_errors {σ : Type} (env : GenEnv σ)
    (cp : Nat → Bool) (start_id n seed : Nat)
    (h : ∃ b, b < numBatches n ∧ cp b = true) :
    (worker_sequential env cp start_id n seed).filter isTerminal =
      [WorkerMessage.GenerationError cancelledReason] ∧
    (worker_sequential env cp start_id n seed).getLast? =
      some (WorkerMessage.GenerationError cancelledReason) ∧
    ∀ cands, WorkerMessage.GenerationComplete cands ∉
      worker_sequential env cp start_id n seed := by
  obtain ⟨b, hb, hcb⟩ := h
  rw [worker_sequential]
  have key := worker_seq_go_cancel env cp start_id n seed (numBatches n) 0 []
    ⟨b, hb, by simpa using hcb⟩
  refine ⟨key.1, key.2, ?_⟩
  intro cands hmem
  have hfil : WorkerMessage.GenerationComplete cands ∈
      (worker_seq_go env cp start_id n seed 0 (numBatches n) []).filter
        isTerminal :=
    List.mem_filter.mpr ⟨hmem, rfl⟩
  rw [key.1] at hfil
  simp at hfil

/-- Witness for `C1_cancel_discards_and_errors`: cancellation pending at the
batch-1 boundary of a 150-item request. -/
theorem C1_cancel_discards_and_errors_witness :
    (worker_sequential toyEnv cancelAtOne 0 150 42).filter isTerminal =
      [WorkerMessage.GenerationError cancelledReason] ∧
    (worker_sequential toyEnv cancelAtOne 0 150 42).getLast? =
      some (WorkerMessage.GenerationError cancelledReason) ∧
    ∀ cands, WorkerMessage.GenerationComplete cands ∉
      worker_sequential toyEnv cancelAtOne 0 150 42 :=
  C1_cancel_discards_and_errors toyEnv cancelAtOne 0 150 42
    ⟨1, by decide, rfl⟩

/-- **C1 counterexample.**  The claim as stated requires a `Cancelled`
terminal event "distinct from Failed, not an error".  On a concrete 150-item
Sequential request whose cancel signal is seen at the batch-1 boundary, the
full event stream is one `Progress` for the completed (and then discarded)
first batch followed by `GenerationError "Cancelled"` — the terminal event is
the error event; the message type has no `Cancelled` variant at all. -/
theorem C1_counterexample :
    worker_sequential toyEnv cancelAtOne 0 150 42 =
      [WorkerMessage.GenerationProgress 50 150,
       WorkerMessage.GenerationError cancelledReason] := by decide

/-! ## C5 — an uncaught pipeline panic kills the worker; no `Failed` event -/

/-- **C5.**  `generation_worker` contains no panic catch: under the
fallible-pipeline model, a panic (`Except.error`) raised while generating the
first batch of a Sequential request propagates out of the whole worker loop —
the result is the unwinding error itself, not a message list, so no
`Failed`/`GenerationError` terminal event is delivered and the worker thread
does not survive to serve further requests.  This contradicts the claim
(and §4.1's stated failure semantics), which require the panic to be caught
and converted into exactly one `Failed{reason}` event. -/
theorem C5_worker_dies_on_panic
    (pipeline : Nat → Nat → Nat → Except (List Char) (List Candidate))
    (cp : Nat → Bool) (start_id n seed : Nat) (e : List Char)
    (hn : 0 < n) (hcp : cp 0 = false)
    (hp : pipeline start_id (min 50 n) (seed % 2 ^ 64) = Except.error e) :
    worker_sequential_panic pipeline cp start_id n seed = Except.error e := by
  rw [worker_sequential_panic]
  obtain ⟨k', hk⟩ : ∃ k', numBatches n = k' + 1 :=
    ⟨numBatches n - 1, by rw [numBatches]; omega⟩
  rw [hk]
  simp only [worker_seq_panic_go, hcp, Bool.false_eq_true, if_false,
    Nat.zero_mul, Nat.zero_add, Nat.sub_zero, Nat.add_zero]
  rw [hp]

/-- Witness for `C5_worker_dies_on_panic`: a pipeline that panics
immediately. -/
theorem C5_worker_dies_on_panic_witness :
    worker_sequential_panic (fun _ _ _ => Except.error "boom".toList)
      (fun _ => false) 0 1 0 = Except.error "boom".toList :=
  C5_worker_dies_on_panic (fun _ _ _ => Except.error "boom".toList)
    (fun _ => false) 0 1 0 "boom".toList (by decide) rfl rfl

/-! ## C9 — crowding distance: boundary fronts and constant objectives -/

/-- Inserting below all keys keeps the list in place. -/
theorem insOrdered_of_le (key : Candidate → ℚ) (x : Candidate)
    (l : List Candidate) (h : ∀ y ∈ l, key x ≤ key y) :
    insOrdered key x l = x :: l := by
  cases l with
  | nil => rfl
  | cons y ys =>
    rw [insOrdered, if_pos (h y (List.mem_cons_self y ys))]

/-- A stable sort by a constant key is the identity. -/
theorem stableSortBy_const (key : Candidate → ℚ) :
    ∀ l : List Candidate, (∀ a ∈ l, ∀ b ∈ l, key a = key b) →
      stableSortBy key l = l := by
  intro l
  induction l with
  | nil => intro _; rfl
  | cons x xs ih =>
    intro h
    rw [stableSortBy, ih (fun a ha b hb =>
      h a (List.mem_cons_of_mem x ha) b (List.mem_cons_of_mem x hb))]
    apply insOrdered_of_le
    intro y hy
    exact le_of_eq (h x (List.mem_cons_self x xs) y (List.mem_cons_of_mem x hy))

/-- `headD` of a nonempty list is a member. -/
theorem headD_mem {l : List Candidate} (h : l ≠ []) (d : Candidate) :
    l.headD d ∈ l := by
  cases l with
  | nil => exact absurd rfl h
  | cons x xs => exact List.mem_cons_self x xs

/-- `getLastD` of a nonempty list is a member. -/
theorem getLastD_mem : ∀ {l : List Candidate}, l ≠ [] → ∀ d : Candidate,
    l.getLastD d ∈ l := by
  intro l
  induction l with
  | nil => intro h; exact absurd rfl h
  | cons x xs ih =>
    intro _ d
    rw [List.getLastD_cons]
    cases hxs : xs with
    | nil => simp [List.getLastD]
    | cons y ys =>
      rw [← hxs]
      exact List.mem_cons_of_mem x (ih (by simp [hxs]) x)

/-- **C9 (amended).**  (1) When the front (the candidates whose ids are in
`front_ids`) has size 1 or 2, `crowding_distance` assigns positive infinity
to every member.  (2) An objective that is constant across the front adds no
normalization term to any member — its range is zero, so the interior loop is
skipped entirely — but its pass still marks the first and last front members
*in working-set order* (the stable sort leaves a constant-key front
unpermuted) as boundary, overwriting their distance with positive infinity;
it does not leave every member's value unchanged, which is what
`C9_counterexample` exhibits. -/
theorem C9_crowding_boundary_and_constant (cands : List Candidate)
    (front_ids : List Nat) :
    (((cands.filter fun c => front_ids.contains c.id).length = 1 ∨
      (cands.filter fun c => front_ids.contains c.id).length = 2) →
      crowding_distance cands front_ids =
        (cands.filter fun c => front_ids.contains c.id).map
          fun c => (c.id, FDist.inf)) ∧
    (∀ (obj : Candidate → ℚ) (front : List Candidate)
        (dists : List (Nat × FDist)),
      (∀ a ∈ front, ∀ b ∈ front, obj a = obj b) →
      crowdingPass obj front dists =
        setKey (setKey dists (front.headD default).id FDist.inf)
          (front.getLastD default).id FDist.inf) := by
  constructor
  · intro h
    rw [crowding_distance, crowding_distance_objs]
    rw [if_pos (by omega)]
  · intro obj front dists hconst
    have hsort : stableSortBy obj front = front := stableSortBy_const obj front hconst
    rw [crowdingPass]
    simp only [hsort]
    have hrange : obj (front.getLastD default) - obj (front.headD default) = 0 := by
      cases hf : front with
      | nil => simp
      | cons x xs =>
        rw [← hf]
        rw [hconst _ (getLastD_mem (by simp [hf]) default) _
          (headD_mem (by simp [hf]) default)]
        exact sub_self _
    rw [hrange, if_neg (lt_irrefl 0)]

/-- Witness for `C9_crowding_boundary_and_constant`: a two-member front gets
all-infinite distances, and a constant-efficacy pass only marks the order
boundaries. -/
theorem C9_crowding_boundary_and_constant_witness :
    (crowding_distance demoCands [0, 1] =
      (demoCands.filter fun c => [0, 1].contains c.id).map
        fun c => (c.id, FDist.inf)) ∧
    (crowdingPass (fun c => c.efficacy) cands39
        [(1, FDist.fin 0), (2, FDist.fin 0), (3, FDist.fin 0)] =
      setKey (setKey [(1, FDist.fin 0), (2, FDist.fin 0), (3, FDist.fin 0)]
        (cands39.headD default).id FDist.inf)
        (cands39.getLastD default).id FDist.inf) :=
  ⟨(C9_crowding_boundary_and_constant demoCands [0, 1]).1 (Or.inr (by decide)),
   (C9_crowding_boundary_and_constant demoCands [0, 1]).2
     (fun c => c.efficacy) cands39 _ (by decide)⟩

/-- **C9 counterexample.**  On `cands39` — efficacy constant, the middle
candidate (id 1, listed first) interior in toxicity, synthesis and
manufacturing cost — the full four-objective `crowding_distance` returns
positive infinity for id 1, because the constant efficacy pass marks it as a
boundary member of the (unpermuted) front order; running the same computation
with the constant objective removed leaves id 1 finite.  The constant
objective therefore does *not* contribute zero to every member's crowding
distance, refuting the claim as stated. -/
theorem C9_counterexample :
    (crowding_distance cands39 [1, 2, 3]).lookup 1 = some FDist.inf ∧
    (crowding_distance_objs
      [fun c => -c.toxicity, fun c => -c.synthesis_cost,
       fun c => -c.manufacturing_cost] cands39 [1, 2, 3]).lookup 1 ≠
      some FDist.inf := by
  constructor
  · norm_num [crowding_distance, crowding_distance_objs, crowding_objectives,
      cands39, crowdingPass, stableSortBy, insOrdered, setKey, addKey,
      FDist.add, List.lookup]
  · norm_num [crowding_distance_objs, cands39, crowdingPass, stableSortBy,
      insOrdered, setKey, addKey, FDist.add, List.lookup]
    decide
